import Mathlib

/-!
# Verification of the pginspector extraction engine (`old/main.go`)

A shallow embedding of the foreign-key-aware extraction engine in
`src/old/main.go`: the schema model (`InspectedColumn`, `InspectedTable`,
`ResultSet`), the value decoder (`AsStringFromValue`), the literal renderer
used when accumulating rows, the recursive traversal (`traverseTables`,
embedded with an explicit fuel parameter since the Go recursion has no
structural bound), the insertion orderer (`DetermineInsertTableOrder`) and
the INSERT-statement emitter from `main`.

Go panics (query failure, failed type assertion, missing table) are modelled
as the `TraverseResult.panicked` outcome; fuel exhaustion is the separate
`TraverseResult.outOfFuel`, an artifact of the embedding.  The database is
modelled as a pure function from the fetch query's (table, column,
identifier) triple to an optional row, mirroring the single
`SELECT * FROM t WHERE c = 'v' ORDER BY id DESC LIMIT 1` fetch.
-/

/-- The components of a Go `time.Time` that the layout
`2006-01-02T15:04:05.000Z` observes: the `.000` chunk truncates the
nanoseconds to milliseconds, so only `millis` is kept. -/
structure GoTime where
  year : Nat
  month : Nat
  day : Nat
  hour : Nat
  minute : Nat
  second : Nat
  millis : Nat
deriving DecidableEq

/-- A decoded driver value for one column, as the pgx driver hands it to the
Go code after `rows.Scan` into an `interface{}` slot: SQL NULL becomes `nil`
(`null`), text-like values a string, integers an int, timestamps a
`time.Time`, uuid a `[16]uint8` fixed array (`fixed16`), and raw byte
sequences a `[]byte` (`bytes`, each entry one byte). -/
inductive Value where
  | null
  | str (s : String)
  | int (n : Int)
  | time (t : GoTime)
  | fixed16 (b : List Nat)
  | bytes (b : List Nat)
deriving DecidableEq

/-- Lowercase hexadecimal digit, as printed by `uuid.UUID.String()`. -/
def hexDigit (n : Nat) : Char :=
  if n < 10 then Char.ofNat (48 + n) else Char.ofNat (87 + n)

/-- Hex expansion of a byte list, two lowercase digits per byte. -/
def hexChars : List Nat → List Char
  | [] => []
  | n :: rest => hexDigit (n / 16 % 16) :: hexDigit (n % 16) :: hexChars rest

/-- The canonical 8-4-4-4-12 hyphenated rendering shared by
`github.com/google/uuid.UUID.String()` and
`github.com/satori/go.uuid.UUID.String()`: the 16 bytes in order, lowercase
hex, hyphens after bytes 4, 6, 8 and 10. -/
def uuidCanonicalString (b : List Nat) : String :=
  String.mk (hexChars (b.take 4) ++ '-' ::
    (hexChars ((b.drop 4).take 2) ++ '-' ::
      (hexChars ((b.drop 6).take 2) ++ '-' ::
        (hexChars ((b.drop 8).take 2) ++ '-' :: hexChars (b.drop 10)))))

/-- Left-pad the decimal rendering of `n` with zeros to width `w`, as Go's
fixed-width layout chunks (`2006`, `01`, `05`, `.000`) do. -/
def zeroPad (w n : Nat) : String :=
  String.mk (List.replicate (w - (toString n).length) '0') ++ toString n

/-- `j.Format("2006-01-02T15:04:05.000Z")` from `traverseTables`: Go's
layout parser only recognises `Z0700`/`Z07:00` as zone chunks, so the lone
trailing `Z` of this layout is copied to the output verbatim, for every
input time. -/
def goTimestampFormat (t : GoTime) : String :=
  zeroPad 4 t.year ++ "-" ++ zeroPad 2 t.month ++ "-" ++ zeroPad 2 t.day ++ "T" ++
    zeroPad 2 t.hour ++ ":" ++ zeroPad 2 t.minute ++ ":" ++ zeroPad 2 t.second ++ "." ++
    zeroPad 3 t.millis ++ "Z"

/-- Modelled from the spec: §4.1's timestamp rule, a literal
`YYYY-MM-DDTHH:MM:SS.mmm` with millisecond precision and *no trailing zone
designator*.  Kept separate from `goTimestampFormat` (the source's
behaviour) so the two can be compared. -/
def specTimestampFormat (t : GoTime) : String :=
  zeroPad 4 t.year ++ "-" ++ zeroPad 2 t.month ++ "-" ++ zeroPad 2 t.day ++ "T" ++
    zeroPad 2 t.hour ++ ":" ++ zeroPad 2 t.minute ++ ":" ++ zeroPad 2 t.second ++ "." ++
    zeroPad 3 t.millis

/-- Go's default `time.Time` rendering under `%v`; unreachable from every
claim (timestamp columns take the dedicated branch), kept total for the
generic fallback path. -/
def goTimeDefaultString (t : GoTime) : String :=
  zeroPad 4 t.year ++ "-" ++ zeroPad 2 t.month ++ "-" ++ zeroPad 2 t.day ++ " " ++
    zeroPad 2 t.hour ++ ":" ++ zeroPad 2 t.minute ++ ":" ++ zeroPad 2 t.second ++ "." ++
    zeroPad 3 t.millis ++ " +0000 UTC"

/-- Go `fmt.Sprintf("%v", value)` (identical to `%+v` for these kinds) of a
decoded driver value.  Byte arrays print as bracketed space-separated
decimals, Go's slice/array rendering. -/
def goSprintV : Value → String
  | Value.null => "<nil>"
  | Value.str s => s
  | Value.int n => toString n
  | Value.time t => goTimeDefaultString t
  | Value.fixed16 b => "[" ++ String.intercalate " " (b.map toString) ++ "]"
  | Value.bytes b => "[" ++ String.intercalate " " (b.map toString) ++ "]"

/-- JSON string escaping restricted to quote and backslash; the remaining
control-character escapes of `encoding/json` are irrelevant to every claim. -/
def jsonEscape (s : String) : String :=
  String.mk (s.data.foldr
    (fun c acc =>
      if c = '"' then '\\' :: '"' :: acc
      else if c = '\\' then '\\' :: '\\' :: acc
      else c :: acc) [])

/-- `json.Marshal` of a decoded driver value, as called on the `json`/`jsonb`
rendering branch.  `fixed16` marshals as a JSON array of numbers (Go
marshals `[16]uint8` element-wise); the `bytes` case is approximated the
same way (Go would base64 a `[]byte`) — no claim exercises these kinds. -/
def jsonMarshal : Value → String
  | Value.null => "null"
  | Value.str s => "\"" ++ jsonEscape s ++ "\""
  | Value.int n => toString n
  | Value.time t => "\"" ++ specTimestampFormat t ++ "Z\""
  | Value.fixed16 b => "[" ++ String.intercalate "," (b.map toString) ++ "]"
  | Value.bytes b => "[" ++ String.intercalate "," (b.map toString) ++ "]"

/-- The marker `AsStringFromValue` returns for a Go `nil` value. -/
def nilValueMarker : String := "<<<<<<<<<<<nil>>>>>>>>>>"

/-- `InspectedColumn` from `old/main.go`: a column name, its declared
database type, the foreign-key target (empty strings when the column is not
a foreign key), and the ordinal position. -/
structure InspectedColumn where
  Name : String
  /-- The Go field is `Type`, a reserved word in Lean. -/
  ColumnType : String
  PointsToTable : String
  PointsToColumn : String
  OrdinalPosition : Nat
deriving DecidableEq

/-- `InspectedTable` from `old/main.go`. -/
structure InspectedTable where
  Name : String
  Columns : List InspectedColumn
deriving DecidableEq

/-- `ListTablesPointedTo`: the `PointsToTable` of every foreign-key column. -/
def InspectedTable.ListTablesPointedTo (t : InspectedTable) : List String :=
  t.Columns.filterMap (fun c => if c.PointsToTable ≠ "" then some c.PointsToTable else none)

/-- `HasPointerToTable`: the first column pointing at `tableName`, if any. -/
def InspectedTable.HasPointerToTable (t : InspectedTable) (tableName : String) :
    Option InspectedColumn :=
  t.Columns.find? (fun col => col.PointsToTable == tableName)

/-- `ResultSet` from `old/main.go`: the schema graph. -/
structure ResultSet where
  Tables : List InspectedTable
deriving DecidableEq

/-- `contains` from `old/main.go`. -/
def contains (s : List String) (e : String) : Bool :=
  s.any (fun a => a == e)

/-- `GetTableIndexByName`; the Go function returns `-1` when absent, which
every caller then uses as a (panicking) slice index, hence `Option`. -/
def ResultSet.GetTableIndexByName (rs : ResultSet) (name : String) : Option Nat :=
  rs.Tables.findIdx? (fun t => t.Name == name)

/-- Outcome of `ResultSet.AddTable`: the Go method either appends the table
or panics (`"Cannot add multiple tables with the same name"`) before any
mutation; the payload of `duplicateTable` is the untouched receiver. -/
inductive AddTableResult where
  | ok (rs : ResultSet)
  | duplicateTable (rs : ResultSet)
deriving DecidableEq

/-- The duplicate-name scan inside `AddTable`. -/
def addTableScan : List InspectedTable → InspectedTable → Bool
  | [], _ => false
  | t :: rest, table => if t.Name == table.Name then true else addTableScan rest table

/-- `AddTable` from `old/main.go`. -/
def ResultSet.AddTable (rs : ResultSet) (table : InspectedTable) : AddTableResult :=
  if addTableScan rs.Tables table then AddTableResult.duplicateTable rs
  else AddTableResult.ok ⟨rs.Tables ++ [table]⟩

/-- The accumulating loop of `DetermineInsertTableOrder`.  Note the Go
dependency check is `contains(pointsTo, dep)` for `dep` ranging over
`pointsTo` itself — not over the already-emitted `res`. -/
def determineOrderLoop : List InspectedTable → List String → List String
  | [], res => res
  | t :: rest, res =>
    let pointsTo := t.ListTablesPointedTo
    if pointsTo.length = 0 ∧ ¬ (contains res t.Name = true) then
      determineOrderLoop rest (res ++ [t.Name])
    else
      let allDepsAvailable := pointsTo.all (fun dep => contains pointsTo dep)
      if allDepsAvailable then determineOrderLoop rest (res ++ [t.Name])
      else determineOrderLoop rest res

/-- `DetermineInsertTableOrder` from `old/main.go`. -/
def ResultSet.DetermineInsertTableOrder (rs : ResultSet) : List String :=
  determineOrderLoop rs.Tables []

/-- `AsStringFromValue` from `old/main.go`.  `none` models a Go panic (a
failed type assertion, or the out-of-range write when a `[]byte` uuid value
is longer than 16 bytes).  The `nil` check precedes the type switch. -/
def AsStringFromValue (pgTypeName : String) (value : Value) : Option String :=
  match value with
  | Value.null => some nilValueMarker
  | v =>
    if pgTypeName = "text" ∨ pgTypeName = "character varying" ∨ pgTypeName = "json" then
      match v with
      | Value.str s => some s
      | Value.bytes d => some (String.mk (d.map Char.ofNat))
      | _ => none
    else if pgTypeName = "uuid" then
      match v with
      | Value.fixed16 b => some (uuidCanonicalString b)
      | Value.bytes d =>
        if d.length > 16 then none
        else some (uuidCanonicalString (d ++ List.replicate (16 - d.length) 0))
      | _ => none
    else if pgTypeName = "timestamp with time zone" ∨
        pgTypeName = "timestamp without time zone" then
      some "<timestamp>"
    else if pgTypeName = "integer" then
      some (goSprintV v)
    else
      some ""

/-- The per-column literal rendering from the `rowStringVals` loop of
`traverseTables` (`old/main.go` lines 431-466): a `nil` slot becomes the
bare keyword `NULL` before the type switch is consulted; otherwise the type
switch picks the uuid / timestamp / json branch or the generic
single-quoted `%+v` fallback.  `none` models the Go panics of the failed
`.([16]uint8)` and `.(time.Time)` assertions. -/
def renderValue (colType : String) (v : Value) : Option String :=
  match v with
  | Value.null => some "NULL"
  | v =>
    if colType = "uuid" then
      match v with
      | Value.fixed16 b => some ("'" ++ uuidCanonicalString b ++ "'")
      | _ => none
    else if colType = "timestamp" ∨ colType = "timestamp with time zone" ∨
        colType = "timestamp without time zone" then
      match v with
      | Value.time t => some ("'" ++ goTimestampFormat t ++ "'")
      | _ => none
    else if colType = "json" ∨ colType = "jsonb" then
      some ("'" ++ jsonMarshal v ++ "'")
    else
      some ("'" ++ goSprintV v ++ "'")

/-- The whole `rowStringVals` loop: one literal per column, in column order. -/
def renderRow (cols : List InspectedColumn) (vals : List Value) : Option (List String) :=
  (cols.zip vals).mapM (fun cv => renderValue cv.1.ColumnType cv.2)

/-- `tableContents` from `old/main.go`. -/
structure TableContents where
  TableName : String
  InsertColumnNames : List String
  ValuesRows : List String
deriving DecidableEq

/-- `getOrCreateTableContents`: the Go function returns the index of the
(unique) entry for `name`, appending a fresh one when absent; the model
keeps the list. -/
def getOrCreateTableContents (l : List TableContents) (name : String) : List TableContents :=
  if l.any (fun c => c.TableName == name) then l else l ++ [⟨name, [], []⟩]

/-- The `fullContents[colIdx].InsertColumnNames = ...` assignment: update
the first entry for `name` (`getOrCreateTableContents` never creates two). -/
def setInsertColumns : List TableContents → String → List String → List TableContents
  | [], _, _ => []
  | c :: rest, name, cols =>
    if c.TableName == name then { c with InsertColumnNames := cols } :: rest
    else c :: setInsertColumns rest name cols

/-- The `fullContents[colIdx].ValuesRows = append(...)` step. -/
def appendValuesRow : List TableContents → String → String → List TableContents
  | [], _, _ => []
  | c :: rest, name, row =>
    if c.TableName == name then { c with ValuesRows := c.ValuesRows ++ [row] } :: rest
    else c :: appendValuesRow rest name row

/-- The global mutable traversal state of `old/main.go`: the `fullContents`
slice and the `visited` list, threaded explicitly. -/
structure TraverseState where
  fullContents : List TableContents
  visited : List String
deriving DecidableEq

/-- Outcome of one traversal call: normal return, a Go panic, or exhaustion
of the embedding's fuel. -/
inductive TraverseResult where
  | ok (s : TraverseState)
  | panicked
  | outOfFuel
deriving DecidableEq

/-- The database, as the single fetch query observes it: the optional row
returned by `SELECT * FROM t WHERE c = 'v' ORDER BY id DESC LIMIT 1` for
each (table, column, identifier) triple.  A fixed database state is a fixed
function. -/
def DB : Type := String → String → String → Option (List Value)

/-- The shape of a recursive `traverseTables` call: (table, column,
identifier, state) to result. -/
def TraverseFn : Type := String → String → String → TraverseState → TraverseResult

/-- `resultData[name]`: a Go map read returns the zero value `nil` when the
key is absent, so absence and SQL NULL coincide, as `Value.null`. -/
def getResultData (rd : List (String × Value)) (name : String) : Value :=
  match rd.find? (fun p => p.1 == name) with
  | some p => p.2
  | none => Value.null

/-- The first loop of `traverseTables` (lines 472-478): for every table of
the schema with a foreign key pointing at `fromTable`, recurse into it,
keyed by the current row's value at the pointed-to column.  No visited-set
check guards these recursive calls. -/
def forwardLoopF (tr : TraverseFn) (fromTable : String) (rd : List (String × Value)) :
    List InspectedTable → TraverseState → TraverseResult
  | [], s => TraverseResult.ok s
  | t :: rest, s =>
    match t.HasPointerToTable fromTable with
    | none => forwardLoopF tr fromTable rd rest s
    | some col =>
      match AsStringFromValue col.ColumnType (getResultData rd col.PointsToColumn) with
      | none => TraverseResult.panicked
      | some ident =>
        match tr t.Name col.Name ident s with
        | TraverseResult.ok s' => forwardLoopF tr fromTable rd rest s'
        | r => r

/-- The second loop of `traverseTables` (lines 479-494): for every
foreign-key column of the current table whose value is non-nil, compute the
identifier, skip it when already in `visited`, otherwise record it and
recurse into the referenced table. -/
def backwardLoopF (tr : TraverseFn) (rd : List (String × Value)) :
    List InspectedColumn → TraverseState → TraverseResult
  | [], s => TraverseResult.ok s
  | col :: rest, s =>
    if col.PointsToTable ≠ "" ∧ col.PointsToColumn ≠ "" then
      if getResultData rd col.Name = Value.null then backwardLoopF tr rd rest s
      else
        match AsStringFromValue col.ColumnType (getResultData rd col.Name) with
        | none => TraverseResult.panicked
        | some ident =>
          if contains s.visited ident then backwardLoopF tr rd rest s
          else
            match tr col.PointsToTable col.PointsToColumn ident
                { s with visited := s.visited ++ [ident] } with
            | TraverseResult.ok s' => backwardLoopF tr rd rest s'
            | r => r
    else backwardLoopF tr rd rest s

/-- The `getOrCreateTableContents` / `InsertColumnNames` refresh /
`ValuesRows` append sequence of one visit, as one state update. -/
def appendFetchedRow (tabl : InspectedTable) (fromTable : String)
    (rowStringVals : List String) (s : TraverseState) : TraverseState :=
  let contents1 := setInsertColumns (getOrCreateTableContents s.fullContents fromTable)
    fromTable (tabl.Columns.map (fun c => c.Name))
  { s with fullContents :=
      appendValuesRow contents1 fromTable (String.intercalate ", " rowStringVals) }

/-- The tail of `traverseBody` shared by the fetched and absent cases:
`ifVals` are the scan slots, `rd` the `resultData` map. -/
def traverseAfterFetch (tr : TraverseFn) (resSet : ResultSet) (fromTable : String)
    (tabl : InspectedTable) (ifVals : List Value) (rd : List (String × Value))
    (s : TraverseState) : TraverseResult :=
  match renderRow tabl.Columns ifVals with
  | none => TraverseResult.panicked
  | some rowStringVals =>
    match forwardLoopF tr fromTable rd resSet.Tables
        (appendFetchedRow tabl fromTable rowStringVals s) with
    | TraverseResult.ok s3 => backwardLoopF tr rd tabl.Columns s3
    | r => r

/-- The body of one `traverseTables` call, parameterized by the function
used for the recursive calls.  In order: resolve the table (a missing table
panics through the `-1` index), fetch the row, decode it into the scan
slots and the `resultData` map, ensure and refresh the table's entry in
`fullContents`, render and append the values row — this happens even when
no row matched, every scan slot then being `nil` — then run the two
expansion loops. -/
def traverseBody (tr : TraverseFn) (db : DB) (resSet : ResultSet)
    (fromTable identifyingColumnName identifier : String) (s : TraverseState) :
    TraverseResult :=
  match resSet.GetTableIndexByName fromTable with
  | none => TraverseResult.panicked
  | some idx =>
    match resSet.Tables[idx]? with
    | none => TraverseResult.panicked
    | some tabl =>
      match db fromTable identifyingColumnName identifier with
      | some row =>
        if row.length = tabl.Columns.length then
          traverseAfterFetch tr resSet fromTable tabl row
            ((tabl.Columns.map (fun c => c.Name)).zip row) s
        else TraverseResult.panicked
      | none =>
        traverseAfterFetch tr resSet fromTable tabl
          (tabl.Columns.map (fun _ => Value.null)) [] s

/-- `traverseTables` from `old/main.go`, with an explicit fuel bound on the
recursion depth (the Go function has none). -/
def traverseTables : Nat → DB → ResultSet → String → String → String →
    TraverseState → TraverseResult
  | 0, _, _, _, _, _, _ => TraverseResult.outOfFuel
  | fuel + 1, db, resSet, fromTable, identifyingColumnName, identifier, s =>
    traverseBody (fun tn cn i st => traverseTables fuel db resSet tn cn i st)
      db resSet fromTable identifyingColumnName identifier s

/-- One INSERT statement of the emission loop in `main` (lines 310-335). -/
def renderInsertStatement (ti : TableContents) : String :=
  let quotedColumnNames := ti.InsertColumnNames.map (fun c => "\"" ++ c ++ "\"")
  let valueRows := String.intercalate ",\n" (ti.ValuesRows.map (fun r => "(" ++ r ++ ")"))
  "INSERT\nINTO \"public\".\"" ++ ti.TableName ++ "\"(" ++
    String.intercalate "," quotedColumnNames ++ ")\nVALUES\n" ++ valueRows ++ "\n;"

/-- The emission loop in `main`: for each table name in the orderer's
output, every matching `fullContents` entry yields one statement. -/
def emitStatements (rs : ResultSet) (contents : List TableContents) : List String :=
  (rs.DetermineInsertTableOrder).flatMap (fun tableName =>
    (contents.filter (fun ti => ti.TableName == tableName)).map renderInsertStatement)

/-- The one-table schema of the no-matching-row scenario: `p(id uuid)`. -/
def tableP : InspectedTable := ⟨"p", [⟨"id", "uuid", "", "", 1⟩]⟩

/-- Schema graph holding only `tableP`. -/
def rsP : ResultSet := ⟨[tableP]⟩

/-- A database with no rows at all. -/
def dbEmpty : DB := fun _ _ _ => none

/-- A self-referencing table: `t(id uuid, parent uuid REFERENCES t(id))`,
the parent-pointer hierarchy of the termination scenario. -/
def selfTable : InspectedTable :=
  ⟨"t", [⟨"id", "uuid", "", "", 1⟩, ⟨"parent", "uuid", "t", "id", 2⟩]⟩

/-- Schema graph holding only `selfTable`. -/
def rsSelf : ResultSet := ⟨[selfTable]⟩

/-- The uuid bytes of the single row of `dbSelf`. -/
def uuidX : List Nat := List.replicate 16 7

/-- Canonical string of `uuidX`. -/
def sX : String := uuidCanonicalString uuidX

/-- A database holding exactly one `t` row, `(id = uuidX, parent = NULL)`:
the nullable self-referencing foreign key is null. -/
def dbSelf : DB := fun t c i =>
  if t = "t" ∧ c = "id" ∧ i = sX then some [Value.fixed16 uuidX, Value.null] else none

/-- `a(id uuid)`, referenced by `tableB`. -/
def tableA : InspectedTable := ⟨"a", [⟨"id", "uuid", "", "", 1⟩]⟩

/-- `b(id uuid, a_id uuid REFERENCES a(id))`. -/
def tableB : InspectedTable :=
  ⟨"b", [⟨"id", "uuid", "", "", 1⟩, ⟨"a_id", "uuid", "a", "id", 2⟩]⟩

/-- Schema graph `a`, `b`. -/
def rsAB : ResultSet := ⟨[tableA, tableB]⟩

/-- uuid bytes of the `a` row. -/
def uuidA : List Nat := List.replicate 16 1

/-- uuid bytes of the `b` row. -/
def uuidB : List Nat := List.replicate 16 2

/-- Canonical string of `uuidA`. -/
def sA : String := uuidCanonicalString uuidA

/-- A database with one `a` row `(id = uuidA)` and one `b` row
`(id = uuidB, a_id = uuidA)`, matched by the two fetch shapes the traversal
issues. -/
def dbAB : DB := fun t c i =>
  if t = "a" ∧ c = "id" ∧ i = sA then some [Value.fixed16 uuidA]
  else if t = "b" ∧ c = "a_id" ∧ i = sA then some [Value.fixed16 uuidB, Value.fixed16 uuidA]
  else none

/-- The `vehicle` table of the duplicate-registration and ordering
scenarios: registered first, with a foreign key into `manufacturer`. -/
def vehicleTable : InspectedTable :=
  ⟨"vehicle", [⟨"id", "uuid", "", "", 1⟩, ⟨"make", "uuid", "manufacturer", "id", 2⟩]⟩

/-- The `manufacturer` table, registered after `vehicle`. -/
def manufacturerTable : InspectedTable := ⟨"manufacturer", [⟨"id", "uuid", "", "", 1⟩]⟩

/-- Schema graph where the dependent table `vehicle` was registered before
its dependency `manufacturer`. -/
def rsVM : ResultSet := ⟨[vehicleTable, manufacturerTable]⟩

/-- Accumulated contents with one row in each of `vehicle` and
`manufacturer`, as after a traversal seeded at the vehicle row. -/
def contentsVM : List TableContents :=
  [⟨"vehicle", ["id", "make"], ["'v1', 'm1'"]⟩, ⟨"manufacturer", ["id"], ["'m1'"]⟩]

/-- The `person` table of the duplicate-registration scenario. -/
def personTable : InspectedTable := ⟨"person", [⟨"id", "uuid", "", "", 1⟩]⟩

/-- A second table descriptor also named `person`, with different columns. -/
def personTable2 : InspectedTable :=
  ⟨"person", [⟨"id", "integer", "", "", 1⟩, ⟨"name", "text", "", "", 2⟩]⟩

/-- Schema graph already holding `personTable`. -/
def rsPerson : ResultSet := ⟨[personTable]⟩

theorem contains_of_mem {l : List String} {a : String} (h : a ∈ l) : contains l a = true := by
  simp only [contains, List.any_eq_true]
  exact ⟨a, h, by simp⟩

theorem all_contains_self (l : List String) : l.all (fun dep => contains l dep) = true := by
  simp only [List.all_eq_true]
  intro x hx
  exact contains_of_mem hx

theorem determineOrderLoop_eq (ts : List InspectedTable) (res : List String) :
    determineOrderLoop ts res = res ++ ts.map (fun t => t.Name) := by
  induction ts generalizing res with
  | nil => simp [determineOrderLoop]
  | cons t rest ih =>
    simp only [determineOrderLoop]
    by_cases h : t.ListTablesPointedTo.length = 0 ∧ ¬ (contains res t.Name = true)
    · rw [if_pos h, ih]
      simp
    · rw [if_neg h]
      simp only [all_contains_self, if_true, ih]
      simp

/-- Claim C10: for every `ResultSet`, `DetermineInsertTableOrder` returns
exactly the names of all registered tables, one each, in registration
order, regardless of foreign-key dependencies: the Go dependency check
tests each dependency for membership in the dependency list itself, which
always holds, so every table is appended in turn. -/
theorem determineInsertTableOrder_is_registration_order (rs : ResultSet) :
    rs.DetermineInsertTableOrder = rs.Tables.map (fun t => t.Name) := by
  simpa [ResultSet.DetermineInsertTableOrder] using determineOrderLoop_eq rs.Tables []

/-- Claim C1, refuted on the code: in the schema graph `rsVM`, `vehicle`
declares a foreign key into `manufacturer` and both tables are present, yet
the Insertion Orderer emits `vehicle` strictly before `manufacturer`
(registration order), and consequently the emitted statement sequence puts
the `vehicle` INSERT before the `manufacturer` INSERT it depends on. -/
theorem determineInsertTableOrder_violates_fk_order :
    rsVM.DetermineInsertTableOrder = ["vehicle", "manufacturer"] ∧
    vehicleTable.ListTablesPointedTo = ["manufacturer"] ∧
    emitStatements rsVM contentsVM =
      ["INSERT\nINTO \"public\".\"vehicle\"(\"id\",\"make\")\nVALUES\n('v1', 'm1')\n;",
       "INSERT\nINTO \"public\".\"manufacturer\"(\"id\")\nVALUES\n('m1')\n;"] := by
  decide

theorem addTableScan_of_mem :
    ∀ (l : List InspectedTable) (t table : InspectedTable),
      t ∈ l → t.Name = table.Name → addTableScan l table = true := by
  intro l
  induction l with
  | nil => intro t table h _; cases h
  | cons x rest ih =>
    intro t table h hname
    cases h with
    | head => simp [addTableScan, hname]
    | tail _ hmem =>
      simp only [addTableScan]
      by_cases hx : x.Name == table.Name
      · rw [if_pos hx]
      · rw [if_neg hx]
        exact ih t table hmem hname

/-- Claim C4: registering a table whose name equals that of an
already-registered table fails with the duplicate-table failure (the Go
panic `"Cannot add multiple tables with the same name"`, raised before any
mutation), and the schema graph carried by the failure is exactly the
unchanged receiver. -/
theorem addTable_duplicate_fails_unchanged (rs : ResultSet) (table : InspectedTable)
    (h : ∃ t ∈ rs.Tables, t.Name = table.Name) :
    rs.AddTable table = AddTableResult.duplicateTable rs := by
  obtain ⟨t, hmem, hname⟩ := h
  simp only [ResultSet.AddTable]
  rw [if_pos (addTableScan_of_mem rs.Tables t table hmem hname)]

/-- Witness for C4: the spec's scenario, a second table named `person`. -/
theorem addTable_duplicate_fails_unchanged_witness :
    (∃ t ∈ rsPerson.Tables, t.Name = personTable2.Name) ∧
    rsPerson.AddTable personTable2 = AddTableResult.duplicateTable rsPerson :=
  ⟨⟨personTable, by decide, rfl⟩,
    addTable_duplicate_fails_unchanged rsPerson personTable2 ⟨personTable, by decide, rfl⟩⟩

/-- Claim C8, refuted on the code: the layout string
`2006-01-02T15:04:05.000Z` ends in a lone `Z`, which Go's `time.Format`
copies to the output verbatim; at this concrete time the emitted literal
therefore carries a trailing `Z`, and is not the zone-less
`YYYY-MM-DDTHH:MM:SS.mmm` form the claim states. -/
theorem timestamp_literal_has_trailing_Z :
    renderValue "timestamp with time zone"
        (Value.time ⟨2020, 3, 4, 5, 6, 7, 89⟩) = some "'2020-03-04T05:06:07.089Z'" ∧
    "'2020-03-04T05:06:07.089Z'" ≠
      "'" ++ specTimestampFormat ⟨2020, 3, 4, 5, 6, 7, 89⟩ ++ "'" := by
  decide

/-- Claim C8 as amended: for every non-null value of a timestamp-typed
column, the emitted literal is the value formatted as
`YYYY-MM-DDTHH:MM:SS.mmm` (millisecond precision) followed by a literal
`Z` character, enclosed in single quotes. -/
theorem timestamp_literal_format (t : GoTime) :
    renderValue "timestamp" (Value.time t) =
      some ("'" ++ (specTimestampFormat t ++ "Z") ++ "'") ∧
    renderValue "timestamp with time zone" (Value.time t) =
      some ("'" ++ (specTimestampFormat t ++ "Z") ++ "'") ∧
    renderValue "timestamp without time zone" (Value.time t) =
      some ("'" ++ (specTimestampFormat t ++ "Z") ++ "'") := by
  have hfmt : goTimestampFormat t = specTimestampFormat t ++ "Z" := by
    simp only [goTimestampFormat, specTimestampFormat, String.append_assoc]
  refine ⟨?_, ?_, ?_⟩ <;> simp [renderValue, hfmt]

theorem hexChars_length (l : List Nat) : (hexChars l).length = 2 * l.length := by
  induction l with
  | nil => rfl
  | cons n rest ih =>
    simp only [hexChars, List.length_cons, ih]
    omega

theorem uuidCanonicalString_length (b : List Nat) (h : b.length = 16) :
    (uuidCanonicalString b).length = 36 := by
  simp [uuidCanonicalString, String.length_mk, List.length_append, hexChars_length,
    List.length_take, List.length_drop, h]

/-- Claim C9: a uuid value arriving as a 16-byte fixed array and one
arriving as a byte sequence of the same 16 bytes decode to the same
canonical hyphenated UUID string of 36 characters, and the emitted literal
wraps that string in single quotes. -/
theorem uuid_decoding_agrees_canonical (b : List Nat) (h : b.length = 16) :
    AsStringFromValue "uuid" (Value.fixed16 b) = some (uuidCanonicalString b) ∧
    AsStringFromValue "uuid" (Value.bytes b) = some (uuidCanonicalString b) ∧
    (uuidCanonicalString b).length = 36 ∧
    renderValue "uuid" (Value.fixed16 b) = some ("'" ++ uuidCanonicalString b ++ "'") := by
  refine ⟨by simp [AsStringFromValue], ?_, uuidCanonicalString_length b h,
    by simp [renderValue]⟩
  simp [AsStringFromValue, h]

/-- Witness for C9 at the all-zero uuid. -/
theorem uuid_decoding_agrees_canonical_witness :
    (List.replicate 16 0).length = 16 ∧
    (AsStringFromValue "uuid" (Value.fixed16 (List.replicate 16 0)) =
        some (uuidCanonicalString (List.replicate 16 0)) ∧
      AsStringFromValue "uuid" (Value.bytes (List.replicate 16 0)) =
        some (uuidCanonicalString (List.replicate 16 0)) ∧
      (uuidCanonicalString (List.replicate 16 0)).length = 36 ∧
      renderValue "uuid" (Value.fixed16 (List.replicate 16 0)) =
        some ("'" ++ uuidCanonicalString (List.replicate 16 0) ++ "'")) :=
  ⟨by decide, uuid_decoding_agrees_canonical (List.replicate 16 0) (by decide)⟩

/-- Claim C6: a null column value renders as the bare keyword `NULL`
whatever the declared type — the nil check precedes the type switch — and
the Expand-backward loop never follows a foreign-key column whose value is
null: the step over such a column leaves state and recursion untouched. -/
theorem null_renders_NULL_and_is_not_followed (colType : String) (tr : TraverseFn)
    (rd : List (String × Value)) (col : InspectedColumn) (rest : List InspectedColumn)
    (s : TraverseState) (h : getResultData rd col.Name = Value.null) :
    renderValue colType Value.null = some "NULL" ∧
    backwardLoopF tr rd (col :: rest) s = backwardLoopF tr rd rest s := by
  refine ⟨rfl, ?_⟩
  simp only [backwardLoopF]
  by_cases hfk : col.PointsToTable ≠ "" ∧ col.PointsToColumn ≠ ""
  · rw [if_pos hfk, h, if_pos rfl]
  · rw [if_neg hfk]

/-- Witness for C6: a null-valued uuid foreign-key column. -/
theorem null_renders_NULL_and_is_not_followed_witness :
    getResultData [] "c" = Value.null ∧
    (renderValue "uuid" Value.null = some "NULL" ∧
      backwardLoopF (fun _ _ _ st => TraverseResult.ok st) []
          [⟨"c", "uuid", "t", "id", 1⟩] ⟨[], []⟩ =
        backwardLoopF (fun _ _ _ st => TraverseResult.ok st) [] [] ⟨[], []⟩) :=
  ⟨rfl, null_renders_NULL_and_is_not_followed "uuid" (fun _ _ _ st => TraverseResult.ok st)
    [] ⟨"c", "uuid", "t", "id", 1⟩ [] ⟨[], []⟩ rfl⟩

/-- Claim C3, refuted on the code: seeding the `a`/`b` schema at the `a`
row, the traversal terminates but produces two ExtractedRows for each of
the pairs `(a, sA)` and `(b, sA)` — the dependent-table loop re-fetches
both without consulting the visited-set, which only guards the
foreign-key (Expand-backward) loop. -/
theorem traverseTables_duplicates_rows :
    (match traverseTables 10 dbAB rsAB "a" "id" sA ⟨[], []⟩ with
      | TraverseResult.ok s =>
        s.fullContents.map (fun ti : TableContents => (ti.TableName, ti.ValuesRows.length))
      | _ => []) = [("a", 2), ("b", 2)] := by
  decide

/-- Claim C5, refuted on the code: a seed matching no row is not an error,
but the extraction is not empty either — the values-row append runs outside
the row-fetched branch, so the scan slots (all `nil`) are rendered and an
INSERT of bare NULLs is emitted for the seed table. -/
theorem absent_seed_emits_null_row :
    traverseTables 1 dbEmpty rsP "p" "id" "x" ⟨[], []⟩ =
      TraverseResult.ok ⟨[⟨"p", ["id"], ["NULL"]⟩], []⟩ ∧
    emitStatements rsP [⟨"p", ["id"], ["NULL"]⟩] =
      ["INSERT\nINTO \"public\".\"p\"(\"id\")\nVALUES\n(NULL)\n;"] := by
  decide

theorem forwardLoopF_mono (tr tr' : TraverseFn)
    (htr : ∀ tn cn i st r, tr tn cn i st = TraverseResult.ok r →
      tr' tn cn i st = TraverseResult.ok r)
    (fromTable : String) (rd : List (String × Value)) :
    ∀ (ts : List InspectedTable) (s r : TraverseState),
      forwardLoopF tr fromTable rd ts s = TraverseResult.ok r →
      forwardLoopF tr' fromTable rd ts s = TraverseResult.ok r := by
  intro ts
  induction ts with
  | nil => intro s r h; exact h
  | cons t rest ih =>
    intro s r h
    simp only [forwardLoopF] at h ⊢
    cases hp : t.HasPointerToTable fromTable with
    | none =>
      simp only [hp] at h ⊢
      exact ih s r h
    | some col =>
      simp only [hp] at h ⊢
      cases hv : AsStringFromValue col.ColumnType (getResultData rd col.PointsToColumn) with
      | none =>
        simp only [hv] at h
        exact TraverseResult.noConfusion h
      | some ident =>
        simp only [hv] at h ⊢
        cases ht : tr t.Name col.Name ident s with
        | ok s1 =>
          simp only [ht] at h
          simp only [htr t.Name col.Name ident s s1 ht]
          exact ih s1 r h
        | panicked => simp only [ht] at h; exact TraverseResult.noConfusion h
        | outOfFuel => simp only [ht] at h; exact TraverseResult.noConfusion h

theorem backwardLoopF_mono (tr tr' : TraverseFn)
    (htr : ∀ tn cn i st r, tr tn cn i st = TraverseResult.ok r →
      tr' tn cn i st = TraverseResult.ok r)
    (rd : List (String × Value)) :
    ∀ (cols : List InspectedColumn) (s r : TraverseState),
      backwardLoopF tr rd cols s = TraverseResult.ok r →
      backwardLoopF tr' rd cols s = TraverseResult.ok r := by
  intro cols
  induction cols with
  | nil => intro s r h; exact h
  | cons col rest ih =>
    intro s r h
    simp only [backwardLoopF] at h ⊢
    by_cases hfk : col.PointsToTable ≠ "" ∧ col.PointsToColumn ≠ ""
    · rw [if_pos hfk] at h ⊢
      by_cases hnull : getResultData rd col.Name = Value.null
      · rw [if_pos hnull] at h ⊢
        exact ih s r h
      · rw [if_neg hnull] at h ⊢
        cases hv : AsStringFromValue col.ColumnType (getResultData rd col.Name) with
        | none =>
          simp only [hv] at h
          exact TraverseResult.noConfusion h
        | some ident =>
          simp only [hv] at h ⊢
          by_cases hvis : contains s.visited ident = true
          · rw [if_pos hvis] at h ⊢
            exact ih s r h
          · rw [if_neg hvis] at h ⊢
            cases ht : tr col.PointsToTable col.PointsToColumn ident
                { s with visited := s.visited ++ [ident] } with
            | ok s1 =>
              simp only [ht] at h
              simp only [htr col.PointsToTable col.PointsToColumn ident
                { s with visited := s.visited ++ [ident] } s1 ht]
              exact ih s1 r h
            | panicked => simp only [ht] at h; exact TraverseResult.noConfusion h
            | outOfFuel => simp only [ht] at h; exact TraverseResult.noConfusion h
    · rw [if_neg hfk] at h ⊢
      exact ih s r h

theorem traverseAfterFetch_mono (tr tr' : TraverseFn)
    (htr : ∀ tn cn i st r, tr tn cn i st = TraverseResult.ok r →
      tr' tn cn i st = TraverseResult.ok r)
    (rs : ResultSet) (ft : String) (tabl : InspectedTable) (ifVals : List Value)
    (rd : List (String × Value)) (s r : TraverseState)
    (h : traverseAfterFetch tr rs ft tabl ifVals rd s = TraverseResult.ok r) :
    traverseAfterFetch tr' rs ft tabl ifVals rd s = TraverseResult.ok r := by
  simp only [traverseAfterFetch] at h ⊢
  cases hr : renderRow tabl.Columns ifVals with
  | none =>
    simp only [hr] at h
    exact TraverseResult.noConfusion h
  | some rowStringVals =>
    simp only [hr] at h ⊢
    cases hf : forwardLoopF tr ft rd rs.Tables (appendFetchedRow tabl ft rowStringVals s) with
    | ok s3 =>
      simp only [hf] at h
      simp only [forwardLoopF_mono tr tr' htr ft rd rs.Tables
        (appendFetchedRow tabl ft rowStringVals s) s3 hf]
      exact backwardLoopF_mono tr tr' htr rd tabl.Columns s3 r h
    | panicked => simp only [hf] at h; exact TraverseResult.noConfusion h
    | outOfFuel => simp only [hf] at h; exact TraverseResult.noConfusion h

theorem traverseBody_mono (tr tr' : TraverseFn)
    (htr : ∀ tn cn i st r, tr tn cn i st = TraverseResult.ok r →
      tr' tn cn i st = TraverseResult.ok r)
    (db : DB) (rs : ResultSet) (ft ic idf : String) (s r : TraverseState)
    (h : traverseBody tr db rs ft ic idf s = TraverseResult.ok r) :
    traverseBody tr' db rs ft ic idf s = TraverseResult.ok r := by
  simp only [traverseBody] at h ⊢
  cases hi : rs.GetTableIndexByName ft with
  | none => simp only [hi] at h; exact TraverseResult.noConfusion h
  | some idx =>
    simp only [hi] at h ⊢
    cases hti : rs.Tables[idx]? with
    | none => simp only [hti] at h; exact TraverseResult.noConfusion h
    | some tabl =>
      simp only [hti] at h ⊢
      cases hdb : db ft ic idf with
      | none =>
        simp only [hdb] at h ⊢
        exact traverseAfterFetch_mono tr tr' htr rs ft tabl _ _ s r h
      | some row =>
        simp only [hdb] at h ⊢
        by_cases hlen : row.length = tabl.Columns.length
        · rw [if_pos hlen] at h ⊢
          exact traverseAfterFetch_mono tr tr' htr rs ft tabl _ _ s r h
        · rw [if_neg hlen] at h
          exact TraverseResult.noConfusion h

theorem traverseTables_mono :
    ∀ (f g : Nat), f ≤ g → ∀ (db : DB) (rs : ResultSet) (ft ic idf : String)
      (s r : TraverseState),
      traverseTables f db rs ft ic idf s = TraverseResult.ok r →
      traverseTables g db rs ft ic idf s = TraverseResult.ok r := by
  intro f
  induction f with
  | zero =>
    intro g _ db rs ft ic idf s r h
    exact TraverseResult.noConfusion h
  | succ n ih =>
    intro g hg db rs ft ic idf s r h
    cases g with
    | zero => omega
    | succ m =>
      have hnm : n ≤ m := Nat.le_of_succ_le_succ hg
      simp only [traverseTables] at h ⊢
      exact traverseBody_mono _ _
        (fun tn cn i st r' h' => ih m hnm db rs tn cn i st r' h') db rs ft ic idf s r h

/-- Claim C7: for a fixed seed and a fixed database state the extraction is
deterministic — any two runs that return normally (at any two fuel bounds
of the embedding) produce the same final state, hence the same ordered
statement sequence. -/
theorem extraction_deterministic (f g : Nat) (db : DB) (rs : ResultSet)
    (ft ic idf : String) (s r1 r2 : TraverseState)
    (h1 : traverseTables f db rs ft ic idf s = TraverseResult.ok r1)
    (h2 : traverseTables g db rs ft ic idf s = TraverseResult.ok r2) :
    r1 = r2 ∧ emitStatements rs r1.fullContents = emitStatements rs r2.fullContents := by
  have hr : r1 = r2 := by
    rcases Nat.le_total f g with hle | hle
    · have h3 := traverseTables_mono f g hle db rs ft ic idf s r1 h1
      rw [h3] at h2
      exact (TraverseResult.ok.injEq r1 r2).mp (by rw [h2])
    · have h3 := traverseTables_mono g f hle db rs ft ic idf s r2 h2
      rw [h3] at h1
      exact (TraverseResult.ok.injEq r2 r1).mp (by rw [h1]) |>.symm
  exact ⟨hr, by rw [hr]⟩

/-- Witness for C7: two runs of the `rsP`/`dbEmpty` extraction, at fuel
bounds 1 and 2, both return the same state. -/
theorem extraction_deterministic_witness :
    traverseTables 1 dbEmpty rsP "p" "id" "x" ⟨[], []⟩ =
      TraverseResult.ok ⟨[⟨"p", ["id"], ["NULL"]⟩], []⟩ ∧
    traverseTables 2 dbEmpty rsP "p" "id" "x" ⟨[], []⟩ =
      TraverseResult.ok ⟨[⟨"p", ["id"], ["NULL"]⟩], []⟩ ∧
    ((⟨[⟨"p", ["id"], ["NULL"]⟩], []⟩ : TraverseState) =
        ⟨[⟨"p", ["id"], ["NULL"]⟩], []⟩ ∧
      emitStatements rsP [⟨"p", ["id"], ["NULL"]⟩] =
        emitStatements rsP [⟨"p", ["id"], ["NULL"]⟩]) :=
  ⟨by decide, by decide,
    extraction_deterministic 1 2 dbEmpty rsP "p" "id" "x" ⟨[], []⟩
      ⟨[⟨"p", ["id"], ["NULL"]⟩], []⟩ ⟨[⟨"p", ["id"], ["NULL"]⟩], []⟩
      (by decide) (by decide)⟩

theorem selfref_afterFetch_outOfFuel (tr : TraverseFn) (ifVals : List Value)
    (rd : List (String × Value)) (s : TraverseState) (i0 : String)
    (hrender : (renderRow selfTable.Columns ifVals).isSome = true)
    (hAs : AsStringFromValue "uuid" (getResultData rd "id") = some i0)
    (htr : ∀ cn i st, tr "t" cn i st = TraverseResult.outOfFuel) :
    traverseAfterFetch tr rsSelf "t" selfTable ifVals rd s = TraverseResult.outOfFuel := by
  simp only [traverseAfterFetch]
  cases hr2 : renderRow selfTable.Columns ifVals with
  | none => simp [hr2] at hrender
  | some rowStringVals =>
    simp only [hr2]
    have e4 : rsSelf.Tables = [selfTable] := rfl
    rw [e4]
    simp only [forwardLoopF]
    have e5 : selfTable.HasPointerToTable "t" = some ⟨"parent", "uuid", "t", "id", 2⟩ := rfl
    simp only [e5]
    have e7 : selfTable.Name = "t" := rfl
    simp only [hAs, e7, htr]

/-- Claim C2, refuted on the code: on the parent-pointer schema `rsSelf`
(one table `t` whose nullable `parent` column references `t.id`, holding
one row with a null parent), the traversal never terminates at any fuel
bound — the dependent-table loop recurses into `t` unconditionally, with no
visited-set consultation, so the same (table, identifier) pairs are fetched
over and over. -/
theorem traverseTables_selfref_never_terminates :
    ∀ (fuel : Nat) (colName ident : String) (s : TraverseState),
      traverseTables fuel dbSelf rsSelf "t" colName ident s = TraverseResult.outOfFuel := by
  intro fuel
  induction fuel with
  | zero => intro colName ident s; rfl
  | succ n ih =>
    intro colName ident s
    simp only [traverseTables, traverseBody]
    have e0 : rsSelf.GetTableIndexByName "t" = some 0 := rfl
    have e1 : rsSelf.Tables[0]? = some selfTable := rfl
    simp only [e0, e1]
    by_cases hc : colName = "id" ∧ ident = sX
    · obtain ⟨hc1, hc2⟩ := hc
      subst hc1
      subst hc2
      have e2 : dbSelf "t" "id" sX = some [Value.fixed16 uuidX, Value.null] := by
        simp [dbSelf]
      simp only [e2]
      rw [if_pos (show ([Value.fixed16 uuidX, Value.null] : List Value).length =
        selfTable.Columns.length from rfl)]
      exact selfref_afterFetch_outOfFuel _ _ _ _ sX (by decide) (by decide)
        (fun cn i st => ih cn i st)
    · have e2 : dbSelf "t" colName ident = none := by
        simp only [dbSelf]
        rw [if_neg]
        intro hh
        exact hc ⟨hh.2.1, hh.2.2⟩
      simp only [e2]
      exact selfref_afterFetch_outOfFuel _ _ _ _ nilValueMarker (by decide) (by decide)
        (fun cn i st => ih cn i st)
